import Mathlib

/-!
# To-do list component (`src/js/component/home.jsx`)

A shallow embedding of the `Home` component and of `getUserName`.

* Browser local storage is an association list of key/value strings.
* `prompt` is fed from an explicit list of replies: `some s` is text confirmed
  with OK, `none` is a dismissed dialog (the browser returns `null`).
* The component is a transition function `step` on its three `useState` cells
  plus local storage; every transition returns the HTTP requests it issues.
* Promise continuations are events (`getResponse`, `postResponse`, ...) that
  carry the username captured by the closure that issued the request.
-/

namespace Home

/-! ## Local storage and `getUserName` -/

/-- Browser local storage: key/value pairs of strings. -/
abbrev LocalStorage := List (String × String)

/-- Model of `localStorage.getItem(key)`: `none` stands for `null`. -/
def getItem (ls : LocalStorage) (key : String) : Option String :=
  ls.lookup key

/-- Model of `localStorage.setItem(key, value)`. -/
def setItem (ls : LocalStorage) (key value : String) : LocalStorage :=
  (key, value) :: ls.filter (fun p => p.1 != key)

/-- Ways in which a handler fails to return. -/
inductive JsError where
  /-- Reading `.length` of `null` throws a `TypeError`. -/
  | typeError
  /-- The blocking `prompt` dialog is still open: no reply is left. -/
  | awaitingInput
  deriving DecidableEq, Repr

/-- The loop `do { user = prompt(...) } while (user.length === 0)` of
`getUserName` (lines 15-17). Returns the accepted text and the unread replies. -/
def promptLoop : List (Option String) → Except JsError (String × List (Option String))
  | [] => .error .awaitingInput
  | none :: _ => .error .typeError
  | some user :: rest => if user.length = 0 then promptLoop rest else .ok (user, rest)

/-- Result of a returning call of `getUserName`: the returned string, local
storage afterwards, and the replies that no prompt has consumed. -/
structure UserNameResult where
  user : String
  storage : LocalStorage
  unread : List (Option String)
  deriving DecidableEq, Repr

/-- Model of `getUserName(forceChange)` (lines 9-24). The test `!user` is true
for `null` and for the empty string. -/
def getUserName (ls : LocalStorage) (forceChange : Bool)
    (replies : List (Option String)) : Except JsError UserNameResult :=
  let user := getItem ls "username"
  match user with
  | some stored =>
    if stored = "" ∨ forceChange = true then
      match promptLoop replies with
      | .ok (entered, rest) => .ok ⟨entered, setItem ls "username" entered, rest⟩
      | .error e => .error e
    else
      .ok ⟨stored, ls, replies⟩
  | none =>
    match promptLoop replies with
    | .ok (entered, rest) => .ok ⟨entered, setItem ls "username" entered, rest⟩
    | .error e => .error e

/-! ## Data model -/

/-- A task item `{ label, done }`. -/
structure Task where
  label : String
  done : Bool
  deriving DecidableEq, Repr

/-- The placeholder `{ label: "Empty", done: false }` built by `postData`. -/
def sentinel : Task := ⟨"Empty", false⟩

/-- HTTP methods used by the component. -/
inductive Method where
  | GET | POST | PUT | DELETE
  deriving DecidableEq, Repr

/-- A `fetch` call: the method, the username appended to the resource URL and
the JSON body when there is one. -/
structure Request where
  method : Method
  user : String
  body : Option (List Task)
  deriving DecidableEq, Repr

/-- The three `useState` cells of `Home` together with local storage. -/
structure State where
  inputValue : String
  list : List Task
  username : String
  storage : LocalStorage
  deriving DecidableEq, Repr

/-- JSON body of a GET response as far as `data.length` inspects it. -/
inductive GetBody where
  /-- An array of task items. -/
  | tasks (l : List Task)
  /-- A JSON value without a `length` property, such as an error object. -/
  | noLength
  deriving DecidableEq, Repr

/-- Events handled by the component. -/
inductive Event where
  /-- `onChange` of the text input. -/
  | change (value : String)
  /-- `onKeyDown` of the text input with `event.key`. -/
  | keyDown (key : String)
  /-- A call `handleDelete(index)`. -/
  | clickDelete (index : Int)
  /-- The Clear All button. -/
  | clickClearAll
  /-- The Change Username button, with the replies given to the prompts. -/
  | clickChangeUsername (replies : List (Option String))
  /-- The GET issued for `user` resolves with a JSON body. -/
  | getResponse (user : String) (data : GetBody)
  /-- The POST issued by `postData` resolves with a JSON body. -/
  | postResponse
  /-- The PUT resolves with a JSON body (it is only logged). -/
  | putResponse
  /-- The DELETE issued for `user` resolves with `data.result`. -/
  | deleteResponse (user : String) (result : Option String)
  /-- A fetch rejects or its body is not JSON: the error is only logged. -/
  | fetchFailed
  deriving DecidableEq, Repr

/-! ## Operations -/

/-- Model of `Array.prototype.splice(start, deleteCount)` as the array left
behind, with the relative-index and clamping rules of ECMAScript. -/
def splice (l : List Task) (start deleteCount : Int) : List Task :=
  let len : Int := l.length
  let actualStart : Nat :=
    if start < 0 then (max (len + start) 0).toNat else (min start len).toNat
  let actualDelete : Nat := (min (max deleteCount 0) (len - actualStart)).toNat
  l.take actualStart ++ l.drop (actualStart + actualDelete)

/-- The fetch of `postData` (lines 37-46): a POST of the one-element list. -/
def postData (user : String) : List Request :=
  [⟨.POST, user, some [sentinel]⟩]

/-- The fetch of `deleteData` (lines 57-63). -/
def deleteData (user : String) : List Request :=
  [⟨.DELETE, user, none⟩]

/-- The effect on `[username]` (lines 74-80): a GET of the list. -/
def usernameEffect (user : String) : List Request :=
  [⟨.GET, user, none⟩]

/-- The effect on `[list]` (lines 93-106): a PUT of the list when it has more
than one element. -/
def listEffect (user : String) (list : List Task) : List Request :=
  if list.length > 1 then [⟨.PUT, user, some list⟩] else []

/-- A call `setList(l)` with a fresh array, followed by the re-render that
runs the effect on `[list]`. -/
def setList (s : State) (l : List Task) : State × List Request :=
  (⟨s.inputValue, l, s.username, s.storage⟩, listEffect s.username l)

/-- Model of `handleKeyDown` (lines 108-113). -/
def handleKeyDown (s : State) (key : String) : State × List Request :=
  if key = "Enter" then
    let r := setList s (s.list ++ [⟨s.inputValue, false⟩])
    (⟨"", r.1.list, r.1.username, r.1.storage⟩, r.2)
  else
    (s, [])

/-- Model of `handleDelete` (lines 115-119). -/
def handleDelete (s : State) (index : Int) : State × List Request :=
  let newList := splice s.list index 1
  setList s newList

/-- One row of the rendered task list: its React key, the text of the span
and the index its Delete button passes to `handleDelete`. -/
structure Row where
  key : Nat
  label : String
  deleteIndex : Nat
  deriving DecidableEq, Repr

/-- What the component renders below the input line. -/
inductive View where
  /-- The paragraph `No tasks, add a task`. -/
  | noTasks
  /-- The rows, one `div` per child that React renders. -/
  | rows (rs : List Row)
  deriving DecidableEq, Repr

/-- The callback of `list.map` (lines 142-151); `none` is `undefined`. -/
def renderItem (item : Task) (index : Nat) : Option Row :=
  if index ≥ 1 then some ⟨index, item.label, index⟩ else none

/-- The `list.map` of the render, from a given first index. -/
def mapItems : List Task → Nat → List (Option Row)
  | [], _ => []
  | item :: rest, index => renderItem item index :: mapItems rest (index + 1)

/-- The conditional of lines 136-155; React renders nothing for `undefined`. -/
def render (list : List Task) : View :=
  if list.length ≤ 1 then .noTasks else .rows ((mapItems list 0).filterMap id)

/-- Indexes bound to the Delete buttons on screen. -/
def deleteButtons (list : List Task) : List Nat :=
  match render list with
  | .noTasks => []
  | .rows rs => rs.map Row.deleteIndex

/-- The transition of the component on one event, with the requests issued.
Each re-render evaluates `getUserName(false)` again as the argument of
`useState`; once a non-empty name is stored (as after `mount`) that call shows
no prompt and changes nothing, so it is left out of the transitions. -/
def step (s : State) : Event → State × List Request
  | .change value => (⟨value, s.list, s.username, s.storage⟩, [])
  | .keyDown key => handleKeyDown s key
  | .clickDelete index => handleDelete s index
  | .clickClearAll => (s, deleteData s.username)
  | .clickChangeUsername replies =>
    match getUserName s.storage true replies with
    | .ok r =>
      (⟨s.inputValue, s.list, r.user, r.storage⟩,
        if r.user = s.username then [] else usernameEffect r.user)
    | .error _ => (s, [])
  | .getResponse user data =>
    match data with
    | .tasks [] => (s, postData user)
    | .tasks (t :: ts) => setList s (t :: ts)
    | .noLength => (s, postData user)
  | .postResponse => setList s [sentinel]
  | .putResponse => (s, [])
  | .deleteResponse user result =>
    if result = some "ok" then (s, postData user) else (s, [])
  | .fetchFailed => (s, [])

/-- Runs a sequence of events, collecting the requests in order. -/
def run (s : State) : List Event → State × List Request
  | [] => (s, [])
  | e :: es =>
    let r := step s e
    let r2 := run r.1 es
    (r2.1, r.2 ++ r2.2)

/-- Mounting `Home` (lines 30-32 and the first run of both effects). -/
def mount (ls : LocalStorage) (replies : List (Option String)) :
    Except JsError (State × List Request) :=
  match getUserName ls false replies with
  | .ok r => .ok (⟨"", [], r.user, r.storage⟩, usernameEffect r.user ++ listEffect r.user [])
  | .error e => .error e

/-- The events of typing `value` into the input and pressing Enter. -/
def commit (value : String) : List Event :=
  [.change value, .keyDown "Enter"]

/-- The events of committing each value in turn. -/
def commits : List String → List Event
  | [] => []
  | value :: rest => commit value ++ commits rest

/-- The row rendered for the item at `index`. -/
def rowOf (p : Nat × Task) : Row := ⟨p.1, p.2.label, p.1⟩

/-- A user edit of the list in state `s`: an Enter commit, or `handleDelete`
on an index that is at least 1 and in range. -/
def userEdit (s : State) : Event → Bool
  | .keyDown key => decide (key = "Enter")
  | .clickDelete index => decide (1 ≤ index ∧ index < (s.list.length : Int))
  | _ => false

/-- Events that keep the sentinel in front: a Delete click comes from a
button on screen, an Enter commit happens on a non-empty list, and a non-empty
GET response starts with the sentinel. -/
def admissible (s : State) : Event → Bool
  | .clickDelete index => (deleteButtons s.list).any (fun n => decide ((n : Int) = index))
  | .keyDown key => decide (key = "Enter" → s.list ≠ [])
  | .getResponse _ (.tasks (t :: _)) => decide (t = sentinel)
  | _ => true

/-- Every event of the run is admissible in the state it is handled in. -/
def admissibleRun (s : State) : List Event → Bool
  | [] => true
  | e :: es => admissible s e && admissibleRun (step s e).1 es

/-- The PUT requests among a list of requests. -/
def puts (reqs : List Request) : List Request :=
  reqs.filter (fun r => r.method = .PUT)

/-- The POST requests among a list of requests. -/
def posts (reqs : List Request) : List Request :=
  reqs.filter (fun r => r.method = .POST)

/-! ## Auxiliary lemmas -/

theorem string_length_pos_of_ne_empty (s : String) (h : s ≠ "") : 0 < s.length := by
  rcases s with ⟨d⟩
  cases d with
  | nil => exact absurd rfl h
  | cons a t => simp [String.length]

theorem string_ne_empty_of_length_ne_zero (s : String) (h : ¬ s.length = 0) : s ≠ "" := by
  intro hs
  subst hs
  exact h rfl

theorem promptLoop_ok_length (replies : List (Option String)) (u : String)
    (rest : List (Option String)) (h : promptLoop replies = .ok (u, rest)) :
    0 < u.length := by
  induction replies with
  | nil => simp [promptLoop] at h
  | cons x xs ih =>
    cases x with
    | none => simp [promptLoop] at h
    | some v =>
      by_cases hv : v.length = 0
      · simp [promptLoop, hv] at h
        exact ih h
      · simp [promptLoop, hv] at h
        rw [← h.1]
        exact Nat.pos_of_ne_zero hv

theorem promptLoop_returns (replies : List (Option String))
    (hne : ∃ v, some v ∈ replies ∧ v ≠ "") (htext : ∀ x ∈ replies, x ≠ none) :
    ∃ u rest, promptLoop replies = .ok (u, rest) := by
  induction replies with
  | nil =>
    obtain ⟨v, hv, _⟩ := hne
    simp at hv
  | cons x xs ih =>
    cases x with
    | none => exact absurd rfl (htext none (List.mem_cons_self _ _))
    | some v =>
      by_cases hv : v.length = 0
      · have hv0 : v = "" := by
          by_contra hc
          exact absurd hv (Nat.pos_iff_ne_zero.mp (string_length_pos_of_ne_empty v hc))
        obtain ⟨w, hw, hwne⟩ := hne
        have hw2 : some w ∈ xs := by
          rcases List.mem_cons.mp hw with h1 | h1
          · injection h1 with h2
            exact absurd (h2.trans hv0) hwne
          · exact h1
        obtain ⟨u, rest, hu⟩ :=
          ih ⟨w, hw2, hwne⟩ (fun y hy => htext y (List.mem_cons_of_mem _ hy))
        exact ⟨u, rest, by simp [promptLoop, hv, hu]⟩
      · exact ⟨v, xs, by simp [promptLoop, hv]⟩

theorem getItem_setItem (ls : LocalStorage) (key value : String) :
    getItem (setItem ls key value) key = some value := by
  simp [getItem, setItem, List.lookup]

theorem getUserName_ok_length (ls : LocalStorage) (forceChange : Bool)
    (replies : List (Option String)) (r : UserNameResult)
    (h : getUserName ls forceChange replies = .ok r) : 0 < r.user.length := by
  unfold getUserName at h
  simp only at h
  split at h
  · rename_i stored hs
    split at h
    · split at h
      · rename_i entered rest hp
        injection h with h
        rw [← h]
        exact promptLoop_ok_length replies entered rest hp
      · cases h
    · rename_i hc
      injection h with h
      rw [← h]
      exact string_length_pos_of_ne_empty stored (fun hh => hc (Or.inl hh))
  · split at h
    · rename_i entered rest hp
      injection h with h
      rw [← h]
      exact promptLoop_ok_length replies entered rest hp
    · cases h

theorem getUserName_of_promptLoop (ls : LocalStorage) (forceChange : Bool)
    (replies rest : List (Option String)) (u : String)
    (hp : promptLoop replies = .ok (u, rest)) :
    ∃ r, getUserName ls forceChange replies = .ok r := by
  unfold getUserName
  simp only
  split
  · split
    · simp [hp]
    · exact ⟨_, rfl⟩
  · simp [hp]

/-! ## The username resolver -/

/-- Claim C1. `getUserName` never returns an empty string: whatever is stored
under `username` (nothing, the empty string or a name), whatever the flag, and
for every sequence of prompt replies that contains a non-empty reply, every
string the call returns has positive length; and when the replies are texts
(no dialog is dismissed) the call does return such a string. -/
theorem getUserName_never_empty (ls : LocalStorage) (forceChange : Bool)
    (replies : List (Option String)) (h : ∃ v, some v ∈ replies ∧ v ≠ "") :
    (∀ r, getUserName ls forceChange replies = .ok r → 0 < r.user.length) ∧
    ((∀ x ∈ replies, x ≠ none) →
      ∃ r, getUserName ls forceChange replies = .ok r ∧ 0 < r.user.length) := by
  refine ⟨fun r hr => getUserName_ok_length ls forceChange replies r hr, fun htext => ?_⟩
  obtain ⟨u, rest, hp⟩ := promptLoop_returns replies h htext
  obtain ⟨r, hr⟩ := getUserName_of_promptLoop ls forceChange replies rest u hp
  exact ⟨r, hr, getUserName_ok_length ls forceChange replies r hr⟩

/-- Witness for C1: an empty stored name and the replies "", "ana". -/
theorem getUserName_never_empty_witness :
    (∃ v, some v ∈ [some "", some "ana"] ∧ v ≠ "") ∧
    (∃ r, getUserName [("username", "")] false [some "", some "ana"] = .ok r ∧
      0 < r.user.length) :=
  ⟨⟨"ana", by decide, by decide⟩,
    (getUserName_never_empty [("username", "")] false [some "", some "ana"]
      ⟨"ana", by decide, by decide⟩).2 (by decide)⟩

/-- Claim C9. `getUserName` persists what it returns: after every call that
returns, local storage holds the returned string under `username`; and when a
non-empty name is already stored and the flag is false, no prompt is shown (no
reply is consumed), the stored name is returned and local storage is the one
the call started with. -/
theorem getUserName_persists (ls : LocalStorage) (forceChange : Bool)
    (replies : List (Option String)) :
    (∀ r, getUserName ls forceChange replies = .ok r →
      getItem r.storage "username" = some r.user) ∧
    (∀ stored, getItem ls "username" = some stored → stored ≠ "" →
      getUserName ls false replies = .ok ⟨stored, ls, replies⟩) := by
  constructor
  · intro r h
    unfold getUserName at h
    simp only at h
    split at h
    · rename_i stored hs
      split at h
      · split at h
        · injection h with h
          rw [← h]
          exact getItem_setItem ls "username" _
        · cases h
      · injection h with h
        rw [← h]
        exact hs
    · split at h
      · injection h with h
        rw [← h]
        exact getItem_setItem ls "username" _
      · cases h
  · intro stored hs hne
    unfold getUserName
    simp [hs, hne]

/-- Witness for C9: the name "ana" is stored, the flag is false. -/
theorem getUserName_persists_witness :
    getUserName [("username", "ana")] false [some "bob"]
      = .ok ⟨"ana", [("username", "ana")], [some "bob"]⟩ ∧
    getItem [("username", "ana")] "username" = some "ana" :=
  ⟨(getUserName_persists [("username", "ana")] false [some "bob"]).2 "ana"
      (by decide) (by decide),
    by decide⟩

/-! ## Deleting and adding tasks -/

theorem splice_one_of_lt (l : List Task) (i : Nat) (h : i < l.length) :
    splice l (i : Int) 1 = l.take i ++ l.drop (i + 1) := by
  unfold splice
  have h1 : ¬ ((i : Int) < 0) := by omega
  have h2 : (min (i : Int) (l.length : Int)).toNat = i := by omega
  have h3 : (min (max (1 : Int) 0) ((l.length : Int) - (i : Nat))).toNat = 1 := by omega
  simp only [h1, if_false, h2, h3]

/-- Claim C4. Deleting index `i` removes exactly that element and keeps the
order of the rest: for every list and every index `i` below its length,
`handleDelete(i)` sets the list to the elements before `i` followed by the
elements after `i`; the new length is one less, the elements before `i` keep
their positions and those after it move down by one. -/
theorem handleDelete_removes_index (s : State) (i : Nat) (h : i < s.list.length) :
    (handleDelete s (i : Int)).1.list = s.list.take i ++ s.list.drop (i + 1) ∧
    (handleDelete s (i : Int)).1.list.length = s.list.length - 1 ∧
    (∀ j, j < i → (handleDelete s (i : Int)).1.list[j]? = s.list[j]?) ∧
    (∀ j, i ≤ j → (handleDelete s (i : Int)).1.list[j]? = s.list[j + 1]?) := by
  have hl : (handleDelete s (i : Int)).1.list = s.list.take i ++ s.list.drop (i + 1) := by
    simp [handleDelete, setList, splice_one_of_lt s.list i h]
  have hlen : (s.list.take i).length = i := by
    rw [List.length_take]
    omega
  refine ⟨hl, ?_, ?_, ?_⟩
  · rw [hl, List.length_append, hlen, List.length_drop]
    omega
  · intro j hj
    rw [hl, List.getElem?_append_left (by omega), List.getElem?_take_of_lt hj]
  · intro j hj
    rw [hl, List.getElem?_append_right (by omega), hlen, List.getElem?_drop]
    congr 1
    omega

/-- Witness for C4: deleting index 1 of a three-element list. -/
theorem handleDelete_removes_index_witness :
    (handleDelete ⟨"", [sentinel, ⟨"a", false⟩, ⟨"b", false⟩], "ana", []⟩ 1).1.list
      = [sentinel, ⟨"b", false⟩] :=
  (handleDelete_removes_index ⟨"", [sentinel, ⟨"a", false⟩, ⟨"b", false⟩], "ana", []⟩ 1
    (by decide)).1

theorem run_append (s : State) (es fs : List Event) :
    run s (es ++ fs) =
      ((run (run s es).1 fs).1, (run s es).2 ++ (run (run s es).1 fs).2) := by
  induction es generalizing s with
  | nil => simp [run]
  | cons e es ih => simp [run, ih, List.append_assoc]

theorem run_commit_list (s : State) (value : String) :
    (run s (commit value)).1 = ⟨"", s.list ++ [⟨value, false⟩], s.username, s.storage⟩ := by
  simp [commit, run, step, handleKeyDown, setList]

theorem run_commits_list (vs : List String) (s : State) :
    (run s (commits vs)).1.list = s.list ++ vs.map (fun v => (⟨v, false⟩ : Task)) := by
  induction vs generalizing s with
  | nil => simp [commits, run]
  | cons v vs ih =>
    rw [commits, run_append]
    simp only
    rw [ih, run_commit_list]
    simp

/-- Claim C5. Adding N tasks via Enter produces a list of length N+1 with the
sentinel at index 0: starting from the one-element sentinel list, after the
values `v1..vN` have each been typed and committed by an Enter keydown, the
list has length N+1, its element 0 is the sentinel and its element `k`
(1 ≤ k ≤ N) is the task with label `vk` and `done = false`. -/
theorem commits_from_sentinel (inputValue username : String) (storage : LocalStorage)
    (vs : List String) :
    (run ⟨inputValue, [sentinel], username, storage⟩ (commits vs)).1.list.length
      = vs.length + 1 ∧
    (run ⟨inputValue, [sentinel], username, storage⟩ (commits vs)).1.list[0]?
      = some sentinel ∧
    (∀ k, 1 ≤ k → k ≤ vs.length →
      (run ⟨inputValue, [sentinel], username, storage⟩ (commits vs)).1.list[k]?
        = (vs[k - 1]?).map (fun v => (⟨v, false⟩ : Task))) ∧
    (run ⟨inputValue, [sentinel], username, storage⟩ (commits vs)).1.list
      = sentinel :: vs.map (fun v => (⟨v, false⟩ : Task)) := by
  have hl := run_commits_list vs ⟨inputValue, [sentinel], username, storage⟩
  simp only [List.singleton_append] at hl
  refine ⟨?_, ?_, ?_, hl⟩
  · rw [hl]
    simp
  · rw [hl]
    simp
  · intro k hk1 _
    rw [hl]
    obtain ⟨m, rfl⟩ : ∃ m, k = m + 1 := ⟨k - 1, by omega⟩
    simp

/-- Witness for C5: two tasks typed and committed. -/
theorem commits_from_sentinel_witness :
    (run ⟨"", [sentinel], "ana", []⟩ (commits ["milk", "eggs"])).1.list
      = [sentinel, ⟨"milk", false⟩, ⟨"eggs", false⟩] :=
  (commits_from_sentinel "" "ana" [] ["milk", "eggs"]).2.2.2

/-! ## The rendered view -/

theorem mapItems_filterMap (l : List Task) (n : Nat) (h : 1 ≤ n) :
    (mapItems l n).filterMap id = (l.enumFrom n).map rowOf := by
  induction l generalizing n with
  | nil => rfl
  | cons t ts ih =>
    have hn : n ≥ 1 := h
    simp [mapItems, renderItem, hn, List.enumFrom, rowOf, ih (n + 1) (by omega)]

theorem render_rows (l : List Task) (h : 1 < l.length) :
    render l = .rows (((l.drop 1).enumFrom 1).map rowOf) := by
  cases l with
  | nil => simp at h
  | cons t ts =>
    have h2 : ¬ (ts.length + 1 ≤ 1) := by
      simp only [List.length_cons] at h
      omega
    simp [render, h2, mapItems, renderItem, mapItems_filterMap ts 1 (le_refl 1)]

theorem enumFrom_map_fst (l : List Task) (n : Nat) :
    (l.enumFrom n).map Prod.fst = List.range' n l.length := by
  induction l generalizing n with
  | nil => rfl
  | cons t ts ih => simp [List.enumFrom, List.range', ih]

theorem enumFrom_map_label (l : List Task) (n : Nat) :
    ((l.enumFrom n).map rowOf).map Row.label = l.map Task.label := by
  induction l generalizing n with
  | nil => rfl
  | cons t ts ih =>
    simp only [List.enumFrom, List.map_cons, ih]
    rfl

theorem deleteButtons_eq (l : List Task) :
    deleteButtons l = if l.length ≤ 1 then [] else List.range' 1 (l.length - 1) := by
  by_cases h : l.length ≤ 1
  · simp [deleteButtons, render, h]
  · have h1 : 1 < l.length := by omega
    have hm : (fun p : Nat × Task => (rowOf p).deleteIndex) = Prod.fst := by
      funext p
      rfl
    simp only [deleteButtons, render_rows l h1, h, if_false, List.map_map, Function.comp_def]
    rw [hm, enumFrom_map_fst]
    simp

/-- Claim C10. The UI only renders and mutates positions ≥ 1: for every list
the view is the `No tasks` message exactly when the length is at most 1, and
otherwise it is one row per element `l[1], ..., l[length-1]`, in that order,
showing that element's label with a Delete button bound to that element's
index; the Delete buttons are bound to the indexes `1 .. length-1`, so index 0
is never shown and no button calls `handleDelete` with index 0. -/
theorem render_positions (l : List Task) :
    (render l = .noTasks ↔ l.length ≤ 1) ∧
    (1 < l.length → render l = .rows (((l.drop 1).enumFrom 1).map rowOf)) ∧
    (1 < l.length → ∃ rs, render l = .rows rs ∧
      rs.map Row.label = (l.drop 1).map Task.label ∧
      rs.map Row.deleteIndex = List.range' 1 (l.length - 1)) ∧
    (∀ i ∈ deleteButtons l, 1 ≤ i ∧ i < l.length) ∧
    0 ∉ deleteButtons l := by
  have hb : ∀ i ∈ deleteButtons l, 1 ≤ i ∧ i < l.length := by
    intro i hi
    rw [deleteButtons_eq] at hi
    by_cases h : l.length ≤ 1
    · simp [h] at hi
    · simp only [h, if_false, List.mem_range'_1] at hi
      omega
  refine ⟨?_, render_rows l, ?_, hb, fun h0 => ?_⟩
  · by_cases h : l.length ≤ 1
    · simp [render, h]
    · simp [render, h]
  · intro h
    refine ⟨_, render_rows l h, enumFrom_map_label _ _, ?_⟩
    have hd := deleteButtons_eq l
    have h2 : ¬ l.length ≤ 1 := by omega
    simp only [deleteButtons, render_rows l h, h2, if_false] at hd
    exact hd
  · have := (hb 0 h0).1
    omega

/-- Witness for C10: a list with two visible tasks. -/
theorem render_positions_witness :
    render [sentinel, ⟨"a", false⟩, ⟨"b", false⟩] = .rows [⟨1, "a", 1⟩, ⟨2, "b", 2⟩] :=
  ((render_positions [sentinel, ⟨"a", false⟩, ⟨"b", false⟩]).2.1 (by decide)).trans
    (by decide)

/-! ## Requests issued by the effects -/

theorem mem_listEffect (user : String) (l : List Task) (r : Request)
    (hr : r ∈ listEffect user l) : r = ⟨.PUT, user, some l⟩ ∧ 1 < l.length := by
  unfold listEffect at hr
  split at hr
  · rename_i h
    simp only [List.mem_singleton] at hr
    exact ⟨hr, h⟩
  · simp at hr

theorem listEffect_of_short (user : String) (l : List Task) (h : l.length ≤ 1) :
    listEffect user l = [] := by
  have h2 : ¬ l.length > 1 := by omega
  simp [listEffect, h2]

theorem listEffect_of_long (user : String) (l : List Task) (h : 1 < l.length) :
    listEffect user l = [⟨.PUT, user, some l⟩] := by
  simp [listEffect, h]

theorem step_put (s : State) (e : Event) (r : Request) (hr : r ∈ (step s e).2)
    (hm : r.method = .PUT) :
    r = ⟨.PUT, s.username, some (step s e).1.list⟩ ∧ 1 < (step s e).1.list.length := by
  cases e with
  | change value => simp [step] at hr
  | keyDown key =>
    by_cases hk : key = "Enter"
    · simp only [step, handleKeyDown, hk, if_true, setList] at hr ⊢
      exact mem_listEffect _ _ r hr
    · simp [step, handleKeyDown, hk] at hr
  | clickDelete index =>
    simp only [step, handleDelete, setList] at hr ⊢
    exact mem_listEffect _ _ r hr
  | clickClearAll =>
    simp only [step, deleteData, List.mem_singleton] at hr
    rw [hr] at hm
    cases hm
  | clickChangeUsername replies =>
    simp only [step] at hr
    split at hr
    · simp only at hr
      split at hr
      · simp at hr
      · simp only [usernameEffect, List.mem_singleton] at hr
        rw [hr] at hm
        cases hm
    · simp at hr
  | getResponse user data =>
    cases data with
    | tasks l =>
      cases l with
      | nil =>
        simp only [step, postData, List.mem_singleton] at hr
        rw [hr] at hm
        cases hm
      | cons t ts =>
        simp only [step, setList] at hr ⊢
        exact mem_listEffect _ _ r hr
    | noLength =>
      simp only [step, postData, List.mem_singleton] at hr
      rw [hr] at hm
      cases hm
  | postResponse =>
    simp only [step, setList] at hr ⊢
    exact mem_listEffect _ _ r hr
  | putResponse => simp [step] at hr
  | deleteResponse user result =>
    by_cases hk : result = some "ok"
    · simp only [step, hk, if_true, postData, List.mem_singleton] at hr
      rw [hr] at hm
      cases hm
    · simp [step, hk] at hr
  | fetchFailed => simp [step] at hr

theorem mount_requests (ls : LocalStorage) (replies : List (Option String)) (s0 : State)
    (reqs0 : List Request) (h : mount ls replies = .ok (s0, reqs0)) :
    reqs0 = [⟨.GET, s0.username, none⟩] ∧ s0.list = [] ∧ s0.inputValue = "" := by
  unfold mount at h
  split at h
  · injection h with h
    injection h with h1 h2
    subst h1
    subst h2
    simp [usernameEffect, listEffect]
  · cases h

/-- Claim C6. PUT is only issued when the list length is > 1: whenever a
transition of the component issues a PUT, the in-memory list at that moment
has more than one element and the request body is that list; for a list of
length 0 or 1 the list-change effect issues nothing, so no transition that
leaves such a list issues a PUT, and mounting issues no PUT either; for a
longer list the effect issues exactly the PUT of that list. -/
theorem put_only_when_longer_than_one :
    (∀ (s : State) (e : Event) (r : Request), r ∈ (step s e).2 → r.method = .PUT →
      r.body = some (step s e).1.list ∧ 1 < (step s e).1.list.length) ∧
    (∀ (s : State) (e : Event), (step s e).1.list.length ≤ 1 → puts (step s e).2 = []) ∧
    (∀ (user : String) (l : List Task), l.length ≤ 1 → listEffect user l = []) ∧
    (∀ (user : String) (l : List Task), 1 < l.length →
      listEffect user l = [⟨.PUT, user, some l⟩]) ∧
    (∀ (ls : LocalStorage) (replies : List (Option String)) (s0 : State)
      (reqs0 : List Request), mount ls replies = .ok (s0, reqs0) → puts reqs0 = []) := by
  refine ⟨?_, ?_, listEffect_of_short, listEffect_of_long, ?_⟩
  · intro s e r hr hm
    obtain ⟨h1, h2⟩ := step_put s e r hr hm
    refine ⟨?_, h2⟩
    rw [h1]
  · intro s e hlen
    rw [puts, List.filter_eq_nil_iff]
    intro r hr hm
    have hm2 : r.method = .PUT := by simpa using hm
    have := (step_put s e r hr hm2).2
    omega
  · intro ls replies s0 reqs0 h
    rw [(mount_requests ls replies s0 reqs0 h).1]
    rfl

/-- Witness for C6: a commit that makes the list two elements long issues the
PUT of that list, and deleting the only task issues none. -/
theorem put_only_when_longer_than_one_witness :
    (step ⟨"a", [sentinel], "ana", []⟩ (.keyDown "Enter")).2
      = [⟨.PUT, "ana", some [sentinel, ⟨"a", false⟩]⟩] ∧
    puts (step ⟨"", [sentinel, ⟨"a", false⟩], "ana", []⟩ (.clickDelete 1)).2 = [] :=
  ⟨by decide,
    put_only_when_longer_than_one.2.1 ⟨"", [sentinel, ⟨"a", false⟩], "ana", []⟩
      (.clickDelete 1) (by decide)⟩

/-! ## Propagation of edits -/

/-- Claim C3 at its failing input. Deleting the only visible task (index 1 of
the two-element list made of the sentinel and "a") is a user edit that changes
the in-memory list to the one-element sentinel list, yet the transition issues
no request at all, so the remote list is not overwritten with the new list;
the same delete on a three-element list does issue the PUT of the new list. -/
theorem delete_last_task_issues_no_put :
    userEdit ⟨"", [sentinel, ⟨"a", false⟩], "ana", []⟩ (.clickDelete 1) = true ∧
    (step ⟨"", [sentinel, ⟨"a", false⟩], "ana", []⟩ (.clickDelete 1)).1.list = [sentinel] ∧
    (step ⟨"", [sentinel, ⟨"a", false⟩], "ana", []⟩ (.clickDelete 1)).1.list
      ≠ [sentinel, ⟨"a", false⟩] ∧
    (step ⟨"", [sentinel, ⟨"a", false⟩], "ana", []⟩ (.clickDelete 1)).2 = [] ∧
    (step ⟨"", [sentinel, ⟨"a", false⟩], "ana", []⟩ (.clickDelete 1)).2
      ≠ [⟨.PUT, "ana", some [sentinel]⟩] ∧
    (step ⟨"", [sentinel, ⟨"a", false⟩, ⟨"b", false⟩], "ana", []⟩ (.clickDelete 1)).2
      = [⟨.PUT, "ana", some [sentinel, ⟨"b", false⟩]⟩] := by
  decide

/-! ## Creating the default list -/

/-- Claim C7. After mount with an empty remote list, exactly one POST creates
a single-sentinel list: mounting issues the GET only; when its response is the
empty list the component issues exactly one request, a POST whose body is the
one-element sentinel list; and once that POST resolves the in-memory list is
that one-element list, the whole run having issued one GET and one POST. -/
theorem mount_empty_remote_posts_once (ls : LocalStorage)
    (replies : List (Option String)) (s0 : State) (reqs0 : List Request)
    (h : mount ls replies = .ok (s0, reqs0)) :
    reqs0 = [⟨.GET, s0.username, none⟩] ∧
    step s0 (.getResponse s0.username (.tasks []))
      = (s0, [⟨.POST, s0.username, some [sentinel]⟩]) ∧
    (run s0 [.getResponse s0.username (.tasks []), .postResponse]).1.list = [sentinel] ∧
    reqs0 ++ (run s0 [.getResponse s0.username (.tasks []), .postResponse]).2
      = [⟨.GET, s0.username, none⟩, ⟨.POST, s0.username, some [sentinel]⟩] ∧
    (posts (reqs0 ++ (run s0 [.getResponse s0.username (.tasks []), .postResponse]).2)).length
      = 1 := by
  obtain ⟨hr, _, _⟩ := mount_requests ls replies s0 reqs0 h
  subst hr
  refine ⟨rfl, rfl, rfl, ?_, ?_⟩
  · simp [run, step, postData, setList, listEffect, sentinel]
  · simp [run, step, postData, setList, listEffect, sentinel, posts]

/-- Witness for C7: the name "ana" is stored, so mounting shows no prompt. -/
theorem mount_empty_remote_posts_once_witness :
    (run ⟨"", [], "ana", [("username", "ana")]⟩
      [.getResponse "ana" (.tasks []), .postResponse]).1.list = [sentinel] :=
  (mount_empty_remote_posts_once [("username", "ana")] []
    ⟨"", [], "ana", [("username", "ana")]⟩ [⟨.GET, "ana", none⟩] rfl).2.2.1

/-- Claim C8. DELETE followed by a success response always triggers exactly
one POST: in every state, when the DELETE is answered with result `ok` the
component issues exactly one request, a POST with the single-sentinel body, and
the in-memory list becomes the one-element sentinel list once that POST
resolves; Clear All itself issues the DELETE only, and any other result
issues nothing. -/
theorem delete_ok_posts_once (s : State) (user : String) :
    step s (.deleteResponse user (some "ok")) = (s, [⟨.POST, user, some [sentinel]⟩]) ∧
    (posts (step s (.deleteResponse user (some "ok"))).2).length = 1 ∧
    (step (step s (.deleteResponse user (some "ok"))).1 .postResponse).1.list = [sentinel] ∧
    run s [.clickClearAll, .deleteResponse s.username (some "ok"), .postResponse]
      = (⟨s.inputValue, [sentinel], s.username, s.storage⟩,
          [⟨.DELETE, s.username, none⟩, ⟨.POST, s.username, some [sentinel]⟩]) ∧
    (∀ result, result ≠ some "ok" → (step s (.deleteResponse user result)).2 = []) := by
  refine ⟨?_, ?_, ?_, ?_, ?_⟩
  · simp [step, postData]
  · simp [step, postData, posts]
  · simp [step, setList]
  · simp [run, step, postData, deleteData, setList, listEffect, sentinel]
  · intro result hres
    simp [step, hres]

/-! ## The sentinel at position 0 -/

theorem mem_deleteButtons (l : List Task) (i : Nat) (hi : i ∈ deleteButtons l) :
    1 ≤ i ∧ i < l.length := by
  rw [deleteButtons_eq] at hi
  by_cases h : l.length ≤ 1
  · simp [h] at hi
  · simp only [h, if_false, List.mem_range'_1] at hi
    omega

theorem getElem?_zero_append (l : List Task) (t : Task) (hne : l ≠ [])
    (h : l[0]? = some sentinel) : (l ++ [t])[0]? = some sentinel := by
  cases l with
  | nil => exact absurd rfl hne
  | cons a as => simpa using h

theorem getElem?_zero_erase (l : List Task) (n : Nat) (h1 : 1 ≤ n)
    (h : l[0]? = some sentinel) : (l.take n ++ l.drop (n + 1))[0]? = some sentinel := by
  obtain ⟨m, rfl⟩ : ∃ m, n = m + 1 := ⟨n - 1, by omega⟩
  cases l with
  | nil => simp at h
  | cons a as => simpa using h

theorem step_keeps_sentinel (s : State) (e : Event)
    (hinv : s.list = [] ∨ s.list[0]? = some sentinel) (ha : admissible s e = true) :
    (step s e).1.list = [] ∨ (step s e).1.list[0]? = some sentinel := by
  cases e with
  | change value => exact hinv
  | keyDown key =>
    by_cases hk : key = "Enter"
    · have hne : s.list ≠ [] := by
        have := of_decide_eq_true ha
        exact this hk
      have h0 : s.list[0]? = some sentinel := hinv.resolve_left hne
      right
      simp only [step, handleKeyDown, hk, if_true, setList]
      exact getElem?_zero_append s.list _ hne h0
    · simpa [step, handleKeyDown, hk] using hinv
  | clickDelete index =>
    simp only [admissible, List.any_eq_true, decide_eq_true_eq] at ha
    obtain ⟨n, hn, hni⟩ := ha
    subst hni
    obtain ⟨h1, h2⟩ := mem_deleteButtons s.list n hn
    have hne : s.list ≠ [] := by
      intro hnil
      rw [hnil] at h2
      simp at h2
    right
    simp only [step, handleDelete, setList, splice_one_of_lt s.list n h2]
    exact getElem?_zero_erase s.list n h1 (hinv.resolve_left hne)
  | clickClearAll => exact hinv
  | clickChangeUsername replies =>
    simp only [step]
    split
    · exact hinv
    · exact hinv
  | getResponse user data =>
    cases data with
    | tasks l =>
      cases l with
      | nil => exact hinv
      | cons t ts =>
        have ht : t = sentinel := by simpa [admissible] using ha
        right
        simp [step, setList, ht]
    | noLength => exact hinv
  | postResponse =>
    right
    simp [step, setList]
  | putResponse => exact hinv
  | deleteResponse user result =>
    by_cases hk : result = some "ok"
    · simpa [step, hk] using hinv
    · simpa [step, hk] using hinv
  | fetchFailed => exact hinv

theorem run_put_sentinel (es : List Event) (s : State)
    (hinv : s.list = [] ∨ s.list[0]? = some sentinel) (ha : admissibleRun s es = true)
    (r : Request) (hr : r ∈ (run s es).2) (hm : r.method = .PUT) :
    ∃ l, r.body = some l ∧ l[0]? = some sentinel := by
  induction es generalizing s with
  | nil => simp [run] at hr
  | cons e es ih =>
    simp only [admissibleRun, Bool.and_eq_true] at ha
    have hnext := step_keeps_sentinel s e hinv ha.1
    simp only [run, List.mem_append] at hr
    rcases hr with hr | hr
    · obtain ⟨hreq, hlen⟩ := step_put s e r hr hm
      refine ⟨(step s e).1.list, by rw [hreq], ?_⟩
      rcases hnext with hnil | h0
      · rw [hnil] at hlen
        simp at hlen
      · exact h0
    · exact ih (step s e).1 hnext ha.2 hr

/-- Counterexample to claim C2 as stated: after mount (the list is still
`[]`), committing "a" and then "b" issues a PUT whose body is the two typed
tasks, with no sentinel at index 0; and a GET response that does not start
with the sentinel is sent back unchanged by the next PUT. -/
theorem put_without_sentinel_at_front :
    mount [("username", "ana")] []
      = .ok (⟨"", [], "ana", [("username", "ana")]⟩, [⟨.GET, "ana", none⟩]) ∧
    (run ⟨"", [], "ana", [("username", "ana")]⟩ (commits ["a", "b"])).2
      = [⟨.PUT, "ana", some [⟨"a", false⟩, ⟨"b", false⟩]⟩] ∧
    (run ⟨"", [], "ana", [("username", "ana")]⟩
        [.getResponse "ana" (.tasks [⟨"a", false⟩, ⟨"b", false⟩])]).2
      = [⟨.PUT, "ana", some [⟨"a", false⟩, ⟨"b", false⟩]⟩] ∧
    ([⟨"a", false⟩, ⟨"b", false⟩] : List Task)[0]? ≠ some sentinel :=
  ⟨rfl, by decide, by decide, by decide⟩

/-- Claim C2, amended. In every run from mount in which Enter commits happen
only once the list is non-empty, every non-empty GET response has the sentinel
at position 0 and Delete clicks come from the rendered buttons (any POST
completion, Clear All, username change and failed request allowed), every PUT
request body is a list whose element at index 0 is the sentinel. -/
theorem put_body_starts_with_sentinel (ls : LocalStorage)
    (replies : List (Option String)) (s0 : State) (reqs0 : List Request)
    (h : mount ls replies = .ok (s0, reqs0)) (es : List Event)
    (ha : admissibleRun s0 es = true) (r : Request)
    (hr : r ∈ reqs0 ++ (run s0 es).2) (hm : r.method = .PUT) :
    ∃ l, r.body = some l ∧ l[0]? = some sentinel := by
  obtain ⟨hreqs, hlist, _⟩ := mount_requests ls replies s0 reqs0 h
  rcases List.mem_append.mp hr with hr0 | hr1
  · rw [hreqs, List.mem_singleton] at hr0
    rw [hr0] at hm
    cases hm
  · exact run_put_sentinel es s0 (Or.inl hlist) ha r hr1 hm

/-- Witness for the amended C2: mount, empty GET response, POST completion,
then one committed task. -/
theorem put_body_starts_with_sentinel_witness :
    ∃ l, (⟨.PUT, "ana", some [sentinel, ⟨"a", false⟩]⟩ : Request).body = some l ∧
      l[0]? = some sentinel :=
  put_body_starts_with_sentinel [("username", "ana")] []
    ⟨"", [], "ana", [("username", "ana")]⟩ [⟨.GET, "ana", none⟩] rfl
    ([.getResponse "ana" (.tasks []), .postResponse] ++ commits ["a"])
    (by decide) ⟨.PUT, "ana", some [sentinel, ⟨"a", false⟩]⟩ (by decide) rfl

end Home
